import Mathlib

/-!
Verification of memflow-win32 against its specification.

This file gives a shallow embedding of the parts of the memflow-win32
repository that the specification's claims are about:

* `Win32Version` with its `Ord` / `PartialEq` implementations
  (src/memflow-win32-defs/src/kernel.rs);
* the keyboard key-state bit math, `is_down` / `set_down`
  (src/memflow-win32/src/win32/keyboard.rs);
* the Win10/Win11 branch selection of the keyboard locator
  (`find_in_user_process`, same file);
* the RIP-relative signature resolver `find_gaf_sig` (same file);
* the TEB recording logic of `process_info_from_base_info` and the
  process-list walk `process_address_list_callback`
  (src/memflow-win32/src/win32/kernel.rs).

Machine integers (`u32`, `u8`, `u64`, `i32`) are modelled as `Nat` / `Int`
with explicit `% 2^w` masks at the points where the Rust code wraps or
masks.  Fallible memory reads are modelled as `Option`-valued functions.
-/

namespace MemflowWin32

/-! ## Win32Version (src/memflow-win32-defs/src/kernel.rs)

Fields `nt_major_version`, `nt_minor_version`, `nt_build_number` are `u32`;
we model them as `Nat` (the code performs only masking, comparison and
equality on them, so no wrap-around arises). -/

structure Win32Version where
  nt_major_version : Nat
  nt_minor_version : Nat
  nt_build_number : Nat
  deriving DecidableEq, Repr

namespace Win32Version

/-- Rust `Win32Version::new` (kernel.rs lines 30-36). -/
def new (nt_major_version nt_minor_version nt_build_number : Nat) : Win32Version :=
  ⟨nt_major_version, nt_minor_version, nt_build_number⟩

/-- Rust `Win32Version::major_version` (kernel.rs lines 45-47). -/
def major_version (v : Win32Version) : Nat := v.nt_major_version

/-- Rust `Win32Version::minor_version` (kernel.rs lines 50-52). -/
def minor_version (v : Win32Version) : Nat := v.nt_minor_version

/-- Rust `Win32Version::build_number` (kernel.rs lines 55-57):
`self.nt_build_number & 0xFFFF`. -/
def build_number (v : Win32Version) : Nat := v.nt_build_number &&& 0xFFFF

/-- Rust `Win32Version::is_checked_build` (kernel.rs lines 60-62):
`(self.nt_build_number & 0xF0000000) == 0xC0000000`. -/
def is_checked_build (v : Win32Version) : Bool :=
  v.nt_build_number &&& 0xF0000000 == 0xC0000000

/-- Rust `impl Ord for Win32Version` (kernel.rs lines 80-94).  Note that both
the zero test and the comparison use the masked accessor `build_number()`,
not the raw field. -/
def cmp (a b : Win32Version) : Ordering :=
  if a.build_number ≠ 0 ∧ b.build_number ≠ 0 then
    compare a.build_number b.build_number
  else if a.nt_major_version ≠ b.nt_major_version then
    compare a.nt_major_version b.nt_major_version
  else if a.nt_minor_version ≠ b.nt_minor_version then
    compare a.nt_minor_version b.nt_minor_version
  else
    Ordering.eq

/-- Rust `impl PartialEq for Win32Version` (kernel.rs lines 96-105).  The zero
tests and the equality here use the raw field `nt_build_number`. -/
def beq (a b : Win32Version) : Bool :=
  if a.nt_build_number ≠ 0 ∧ b.nt_build_number ≠ 0 then
    a.nt_build_number == b.nt_build_number
  else
    a.nt_major_version == b.nt_major_version &&
      a.nt_minor_version == b.nt_minor_version

/-- Rust `a >= b` via the derived `PartialOrd`, i.e. `cmp` is not `Less`. -/
def ge (a b : Win32Version) : Prop := a.cmp b ≠ Ordering.lt

instance : ∀ a b : Win32Version, Decidable (ge a b) := fun a b =>
  inferInstanceAs (Decidable (a.cmp b ≠ Ordering.lt))

/-- Rust `impl From<(u32, u32)> for Win32Version` (kernel.rs lines 109-117):
the build number is set to zero. -/
def ofPair (major minor : Nat) : Win32Version := ⟨major, minor, 0⟩

end Win32Version

/-! ## Keyboard key-state bit math (src/memflow-win32/src/win32/keyboard.rs)

The key-state buffer is `[u8; 256 * 2 / 8]`, i.e. 64 bytes; we model it as
a `List Nat` of byte values.  The virtual-key code parameter of
`is_down` / `set_down` is an `i32`, modelled as `Int`; the bit-math macros
are only ever evaluated after the `(0..=256).contains(&vk)` guard, so on a
non-negative `vk`, where Rust's `i32` arithmetic agrees with `Nat`
arithmetic.  Rust's panicking index operation `buffer[i]` is modelled with
`List.get?`: an out-of-bounds index yields `none` (the panic). -/

/-- Rust `get_ks_byte!` (keyboard.rs lines 602-606): `vk * 2 / 8`. -/
def get_ks_byte (vk : Nat) : Nat := vk * 2 / 8

/-- Rust `get_ks_down_bit!` (keyboard.rs lines 608-612): `1 << ((vk % 4) * 2)`. -/
def get_ks_down_bit (vk : Nat) : Nat := 1 <<< (vk % 4 * 2)

/-- Rust `is_key_down!` (keyboard.rs lines 614-618):
`(ks[get_ks_byte!(vk)] & get_ks_down_bit!(vk)) != 0`, with `none` standing
for the panic of an out-of-bounds index. -/
def is_key_down (ks : List Nat) (vk : Nat) : Option Bool :=
  (ks.get? (get_ks_byte vk)).map fun b => b &&& get_ks_down_bit vk != 0

/-- The byte stored back by `set_key_down!` (keyboard.rs lines 620-628):
`b | bit` when pressing, `b & !bit` when releasing (`!` is bitwise not on
`u8`, i.e. xor with `0xFF`). -/
def set_key_down_byte (b : Nat) (vk : Nat) (down : Bool) : Nat :=
  if down then b ||| get_ks_down_bit vk
  else b &&& (0xFF ^^^ get_ks_down_bit vk)

/-- Rust `set_key_down!` (keyboard.rs lines 620-628) acting on the buffer:
`none` stands for the panic of an out-of-bounds index. -/
def set_key_down (ks : List Nat) (vk : Nat) (down : Bool) : Option (List Nat) :=
  (ks.get? (get_ks_byte vk)).map fun b =>
    ks.set (get_ks_byte vk) (set_key_down_byte b vk down)

/-- Rust `Win32Keyboard::is_down` (keyboard.rs lines 639-651).  `readResult` is
the outcome of `self.virt_mem.read::<[u8; 64]>(..)` (`none` = read error,
in which case the function returns `false`).  The outer `Option` is `none`
exactly when the Rust code panics on an out-of-bounds index. -/
def kb_is_down (readResult : Option (List Nat)) (vk : Int) : Option Bool :=
  if ¬(0 ≤ vk ∧ vk ≤ 256) then some false
  else
    match readResult with
    | some buffer => is_key_down buffer vk.toNat
    | none => some false

/-- Rust `Win32Keyboard::set_down` (keyboard.rs lines 659-666).  The result is
the write performed (`some (some buf)` = `buf` written back,
`some none` = no write, `none` = panic on an out-of-bounds index). -/
def kb_set_down (readResult : Option (List Nat)) (vk : Int) (down : Bool) :
    Option (Option (List Nat)) :=
  if 0 ≤ vk ∧ vk ≤ 256 then
    match readResult with
    | some buffer => (set_key_down buffer vk.toNat down).map some
    | none => some none
  else
    some none

/-! ## Keyboard locator branch selection (keyboard.rs `find_in_user_process`)

`find_in_user_process` (lines 184-443) first computes
`is_win11 = winver >= (10, 0, 22621).into()` and
`at_least_24_h2 = winver >= (10, 0, 22632).into()` and then selects the
signature, target kernel module name and fallback offsets.  We model an
IDA-style byte pattern as a list of optional bytes (`none` = `?`
wildcard), and the selection outcome as a record; the Win10 path (no
session-global-slots lookup) is `none`.  This models the build with the
`regex` cargo feature enabled, where the signatures are actually used. -/

/-- Rust `ida_regex![48 8B 05 ? ? ? ? FF C9]` (keyboard.rs line 240), the 24H2
`gSessionGlobalSlots` signature. -/
def sig_gss_24h2 : List (Option Nat) :=
  [some 0x48, some 0x8B, some 0x05, none, none, none, none, some 0xFF, some 0xC9]

/-- Rust `ida_regex![48 8B 05 ? ? ? ? 48 8B 04 C8]` (keyboard.rs line 271), the
23H2 `gSessionGlobalSlots` signature. -/
def sig_gss_23h2 : List (Option Nat) :=
  [some 0x48, some 0x8B, some 0x05, none, none, none, none,
   some 0x48, some 0x8B, some 0x04, some 0xC8]

structure KbSelection where
  g_session_global_slots_signature : List (Option Nat)
  target_kernel_module_name : String
  g_session_global_slots_offset_fallback : Nat
  key_state_offset_fallback : Nat
  deriving DecidableEq, Repr

/-- The version-directed branch selection of `find_in_user_process`
(keyboard.rs lines 199-284): `none` is the Win10 path (lines 419-442),
`some sel` the Win11 path with its selected signature, module and
fallback offsets (lines 217-284). -/
def find_in_user_process_selection (winver : Win32Version) : Option KbSelection :=
  let is_win11 := winver.ge (Win32Version.new 10 0 22621)
  let at_least_24_h2 := winver.ge (Win32Version.new 10 0 22632)
  if is_win11 then
    if at_least_24_h2 then
      some ⟨sig_gss_24h2, "win32k.sys", 0x824F0, 0x3808⟩
    else
      some ⟨sig_gss_23h2, "WIN32KSGD.SYS", 0x3110, 0x36a8⟩
  else
    none

/-! ## RIP-relative signature resolver (keyboard.rs `find_gaf_sig`)

`find_gaf_sig` (lines 497-535) reads the module into a byte buffer,
searches for the leftmost match of the byte-regex
`48 8B 05 ? ? ? ? 48 89 81 ? ? 00 00 48 8B 8F` and resolves the
RIP-relative displacement at match offset + 3:
`export_offs = buf_offs as u32 + u32_le(buf[buf_offs..buf_offs+4]) + 0x4`,
computed in wrapping 32-bit arithmetic. -/

/-- The `gafAsyncKeyState` signature
`ida_regex![48 8B 05 ? ? ? ? 48 89 81 ? ? 00 00 48 8B 8F]`
(keyboard.rs line 512). -/
def sig_gaf : List (Option Nat) :=
  [some 0x48, some 0x8B, some 0x05, none, none, none, none,
   some 0x48, some 0x89, some 0x81, none, none, some 0x00, some 0x00,
   some 0x48, some 0x8B, some 0x8F]

/-- One byte-pattern position matches: a wildcard matches any byte, a
literal matches exactly that byte. -/
def sigByteMatches (p : Option Nat) (b : Nat) : Bool :=
  match p with
  | none => true
  | some v => v == b

/-- The pattern `sig` matches the buffer at offset `m` (every pattern
position agrees with the byte at `m + i`, all in range). -/
def sigMatchesAt (sig : List (Option Nat)) (buf : List Nat) (m : Nat) : Bool :=
  m + sig.length ≤ buf.length &&
    (List.range sig.length).all fun i =>
      sigByteMatches (sig.getD i none) (buf.getD (m + i) 0)

/-- The leftmost match offset of `sig` in `buf`, as found by
`regex::bytes::Regex::find` (which returns the leftmost match). -/
def sigFirstMatch (sig : List (Option Nat)) (buf : List Nat) : Option Nat :=
  (List.range buf.length).find? fun m => sigMatchesAt sig buf m

/-- Little-endian `u32` of the four bytes of `buf` at `offs`
(`u32::from_le_bytes(buf[offs..offs+4])`, keyboard.rs line 527). -/
def u32_le_at (buf : List Nat) (offs : Nat) : Nat :=
  buf.getD offs 0 + 0x100 * buf.getD (offs + 1) 0 +
    0x10000 * buf.getD (offs + 2) 0 + 0x1000000 * buf.getD (offs + 3) 0

/-- Rust `find_gaf_sig` (keyboard.rs lines 497-535), given the module buffer:
leftmost match of `sig_gaf`, then
`export_offs = (buf_offs + u32_le + 0x4) mod 2^32` with
`buf_offs = m + 0x3` (wrapping `u32` addition). -/
def find_gaf_sig (buf : List Nat) : Option Nat :=
  match sigFirstMatch sig_gaf buf with
  | none => none
  | some m => some (((m + 0x3) % 2 ^ 32 + u32_le_at buf (m + 0x3) + 0x4) % 2 ^ 32)

/-- The signed (two's-complement) reading of a 32-bit value: the `i32`
with the same bit pattern. -/
def i32_of_u32 (u : Nat) : Int :=
  if u % 2 ^ 32 < 2 ^ 31 then (u % 2 ^ 32 : Int) else (u % 2 ^ 32 : Int) - 2 ^ 32

/-! ## TEB recording in `process_info_from_base_info`
(src/memflow-win32/src/win32/kernel.rs lines 253-275)

The `(teb, teb_wow64)` pair is computed as: if
`kernel_winver >= (6, 2).into()` then read `teb` at
`ethread + kthread_teb`; if it is non-null, record `Some(teb)` and, when
`proc_arch != sys_arch`, also `Some(teb + 0x2000)`; in every other case
both are `None`.  `tebVal` is the value returned by the (successful) read;
the null address is 0. -/

/-- A `memflow` `ArchitectureIdent`: `X86(bits, address_extension)` or
`AArch64(page_size)` or `Unknown(value)`. -/
inductive ArchitectureIdent where
  | X86 (bits : Nat) (addressExtension : Bool)
  | AArch64 (pageSize : Nat)
  | Unknown (value : Nat)
  deriving DecidableEq, Repr

/-- The `(teb, teb_wow64)` computation of `process_info_from_base_info`
(kernel.rs lines 253-275). -/
def process_info_teb (kernel_winver : Win32Version) (tebVal : Nat)
    (proc_arch sys_arch : ArchitectureIdent) : Option Nat × Option Nat :=
  if kernel_winver.ge (Win32Version.ofPair 6 2) then
    if tebVal ≠ 0 then
      (some tebVal,
        if proc_arch = sys_arch then none else some (tebVal + 0x2000))
    else
      (none, none)
  else
    (none, none)

/-! ## Process list walk (kernel.rs `process_address_list_callback`)

`process_address_list_callback` (kernel.rs lines 537-578) walks the
`EPROCESS` `LIST_ENTRY` chain: starting at
`list_start = eprocess_base + eproc_link`, for at most
`MAX_ITER_COUNT = 65536` iterations it reads `flink` at the current entry
and `blink` at `entry + list_blink`, breaks when either is null or
`flink == list_start` or `flink == entry`, otherwise calls the callback
with `entry - eproc_link` (stopping when the callback returns `false`)
and continues at `flink`.

`memflow` addresses are `u64`; address arithmetic wraps modulo `2^64` and
the null address is 0.  `read` models `read_addr_arch` (`none` = read
error, which aborts the walk with an error).  The returned list is the
sequence of addresses passed to the callback. -/

/-- Rust `MAX_ITER_COUNT` (kernel.rs line 32). -/
def MAX_ITER_COUNT : Nat := 65536

/-- Wrapping `u64` subtraction `a - b` (`Address - umem`). -/
def addr_sub (a b : Nat) : Nat := (a + (2 ^ 64 - b % 2 ^ 64)) % 2 ^ 64

/-- The loop of `process_address_list_callback` (kernel.rs lines 544-575),
with an explicit fuel argument standing for `MAX_ITER_COUNT`'s
`for _ in 0..MAX_ITER_COUNT`. -/
def palc_walk (read : Nat → Option Nat) (blinkOff eprocLink listStart : Nat)
    (cb : Nat → Bool) : Nat → Nat → List Nat
  | 0, _ => []
  | fuel + 1, listEntry =>
    match read listEntry, read ((listEntry + blinkOff) % 2 ^ 64) with
    | some flink, some blink =>
      if flink = 0 ∨ blink = 0 ∨ flink = listStart ∨ flink = listEntry then
        []
      else if cb (addr_sub listEntry eprocLink) then
        addr_sub listEntry eprocLink ::
          palc_walk read blinkOff eprocLink listStart cb fuel flink
      else
        [addr_sub listEntry eprocLink]
    | _, _ => []

/-- Rust `process_address_list_callback` (kernel.rs lines 537-578): the
sequence of `EPROCESS` addresses passed to the callback. -/
def process_address_list_callback (read : Nat → Option Nat)
    (blinkOff eprocLink eprocessBase : Nat) (cb : Nat → Bool) : List Nat :=
  palc_walk read blinkOff eprocLink ((eprocessBase + eprocLink) % 2 ^ 64) cb
    MAX_ITER_COUNT ((eprocessBase + eprocLink) % 2 ^ 64)

/-- The loop's break condition at entry `x` (kernel.rs lines 559-564),
also satisfied when one of the two reads fails (the walk then stops with
an error). -/
def palc_terminal (read : Nat → Option Nat) (blinkOff listStart x : Nat) : Bool :=
  match read x, read ((x + blinkOff) % 2 ^ 64) with
  | some flink, some blink =>
    flink == 0 || blink == 0 || flink == listStart || flink == x
  | _, _ => true

/-- Following `flink` from the list head eventually reaches a state where
the walk stops: a chain of successful `flink` reads from `listStart`
whose last element satisfies the break condition (null `flink` or
`blink`, the head, or a self-loop) or has a failing read. -/
def palc_reaches_terminal (read : Nat → Option Nat) (blinkOff listStart : Nat) : Prop :=
  ∃ (n : Nat) (c : Nat → Nat), c 0 = listStart ∧
    (∀ i, i < n → read (c i) = some (c (i + 1))) ∧
    palc_terminal read blinkOff listStart (c n) = true

/-! ## Helper lemmas -/

theorem build_number_eq_mod (v : Win32Version) :
    v.build_number = v.nt_build_number % 2 ^ 16 := by
  unfold Win32Version.build_number
  rw [show (0xFFFF : Nat) = 2 ^ 16 - 1 by norm_num, Nat.and_pow_two_sub_one_eq_mod]

theorem and_hi_nibble_testBit (x i : Nat) :
    (x &&& 0xF0000000).testBit i =
      (x.testBit i && (decide (28 ≤ i) && decide (i < 32))) := by
  rw [Nat.testBit_and]
  congr 1
  rw [show (0xF0000000 : Nat) = (2 ^ 4 - 1) <<< 28 from rfl]
  rw [Nat.testBit_shiftLeft, Nat.testBit_two_pow_sub_one]
  rcases Nat.lt_or_ge i 28 with h | h
  · have h2 : ¬(28 ≤ i) := Nat.not_le.mpr h
    simp [h2]
  · have h2 : (i - 28 < 4) = (i < 32) := by
      apply propext; omega
    simp [h, h2]

theorem and_hi_nibble_eq (x : Nat) :
    x &&& 0xF0000000 = x / 2 ^ 28 % 2 ^ 4 * 2 ^ 28 := by
  apply Nat.eq_of_testBit_eq
  intro i
  rw [and_hi_nibble_testBit]
  rw [show x / 2 ^ 28 % 2 ^ 4 * 2 ^ 28 = (x >>> 28 % 2 ^ 4) <<< 28 by
    rw [Nat.shiftLeft_eq, Nat.shiftRight_eq_div_pow]]
  rw [Nat.testBit_shiftLeft]
  rcases Nat.lt_or_ge i 28 with h | h
  · have h2 : ¬(28 ≤ i) := Nat.not_le.mpr h
    simp [h2]
  · have h3 : 28 + (i - 28) = i := by omega
    rw [Nat.testBit_mod_two_pow, Nat.testBit_shiftRight, h3]
    have h2 : (i - 28 < 4) = (i < 32) := by apply propext; omega
    simp [h, h2, Bool.and_comm]

theorem then_of_ne_eq {o p : Ordering} (h : o ≠ Ordering.eq) : o.then p = o := by
  cases o with
  | lt => rfl
  | eq => exact absurd rfl h
  | gt => rfl

/-! ## Claim theorems -/

/-- Claim C1 — counterexample.  At `a = Win32Version::new(10, 0, 22621)` and
`b = Win32Version::new(10, 0, 4026550885)` both raw `nt_build_number`
fields are non-zero, yet `cmp(a, b)` is `Greater` while the comparison of
the raw fields is `Less`: `cmp` compares the masked `build_number()`
(`4026550885 & 0xFFFF = 19045 < 22621`), not the raw fields. -/
theorem c1_counterexample :
    ¬((Win32Version.new 10 0 22621).nt_build_number ≠ 0 ∧
        (Win32Version.new 10 0 4026550885).nt_build_number ≠ 0 →
      Win32Version.cmp (Win32Version.new 10 0 22621)
          (Win32Version.new 10 0 4026550885) =
        compare (Win32Version.new 10 0 22621).nt_build_number
          (Win32Version.new 10 0 4026550885).nt_build_number) := by
  decide

/-- Claim C1 (amended): for every pair of `Win32Version` values whose
**masked** build numbers (`build_number()`) are both non-zero,
`Ord::cmp` equals the comparison of the masked build numbers; when at
least one masked build is zero, `cmp` compares `nt_major_version` then
`nt_minor_version` lexicographically and ignores the builds. -/
theorem c1_version_ordering (a b : Win32Version) :
    (a.build_number ≠ 0 → b.build_number ≠ 0 →
      a.cmp b = compare a.build_number b.build_number) ∧
    (a.build_number = 0 ∨ b.build_number = 0 →
      a.cmp b = (compare a.nt_major_version b.nt_major_version).then
        (compare a.nt_minor_version b.nt_minor_version)) := by
  constructor
  · intro h1 h2
    unfold Win32Version.cmp
    rw [if_pos ⟨h1, h2⟩]
  · intro h
    unfold Win32Version.cmp
    rw [if_neg (by tauto)]
    rcases eq_or_ne a.nt_major_version b.nt_major_version with hM | hM
    · rw [if_neg (by simp [hM])]
      have hMc : compare a.nt_major_version b.nt_major_version = Ordering.eq :=
        Nat.compare_eq_eq.mpr hM
      rw [hMc, show Ordering.eq.then (compare a.nt_minor_version b.nt_minor_version) =
        compare a.nt_minor_version b.nt_minor_version from rfl]
      rcases eq_or_ne a.nt_minor_version b.nt_minor_version with hm | hm
      · rw [if_neg (by simp [hm]), hm]
        exact (Nat.compare_eq_eq.mpr rfl).symm
      · rw [if_pos hm]
    · rw [if_pos hM]
      rw [then_of_ne_eq (fun hc => hM (Nat.compare_eq_eq.mp hc))]

/-- Claim C1 — witness for the amended theorem at a concrete input. -/
theorem c1_version_ordering_witness :
    Win32Version.cmp (Win32Version.new 10 0 22621) (Win32Version.new 10 0 19044) =
      compare (Win32Version.new 10 0 22621).build_number
        (Win32Version.new 10 0 19044).build_number :=
  (c1_version_ordering (Win32Version.new 10 0 22621) (Win32Version.new 10 0 19044)).1
    (by decide) (by decide)

/-- Claim C5 — counterexample.  For `vk = 0x20` (VK_SPACE) the byte index is
`0x20 * 2 / 8 = 8`, not 16 as claimed. -/
theorem c5_counterexample :
    ¬(get_ks_byte 0x20 = 16 ∧ get_ks_down_bit 0x20 = 0x01) := by
  decide

/-- Claim C5 (amended): for `vk = 0x20` (VK_SPACE) the keyboard bit math
computes byte index `8` and down-bit mask `0x01`. -/
theorem c5_space_layout :
    get_ks_byte 0x20 = 8 ∧ get_ks_down_bit 0x20 = 0x01 := by
  decide

/-- Claim C9: `Win32Version::new(10, 0, 0xC0005ABC)` is reported as a
checked build with `build_number() = 0x5ABC`; in general `build_number()`
is the low 16 bits of `nt_build_number` (`& 0xFFFF`), and
`is_checked_build()` holds exactly when the upper nibble of the 32-bit
build value is `0xC` (the `0xC0000000` pattern). -/
theorem c9_build_masking :
    (Win32Version.new 10 0 0xC0005ABC).is_checked_build = true ∧
    (Win32Version.new 10 0 0xC0005ABC).build_number = 0x5ABC ∧
    (∀ v : Win32Version, v.build_number = v.nt_build_number % 2 ^ 16) ∧
    (∀ v : Win32Version, v.nt_build_number < 2 ^ 32 →
      (v.is_checked_build = true ↔ v.nt_build_number / 0x10000000 = 0xC)) := by
  refine ⟨by decide, by decide, build_number_eq_mod, ?_⟩
  intro v hv
  unfold Win32Version.is_checked_build
  rw [and_hi_nibble_eq]
  have h1 : v.nt_build_number / 2 ^ 28 < 2 ^ 4 := by omega
  rw [Nat.mod_eq_of_lt h1, beq_iff_eq]
  constructor
  · intro h
    have h4 : v.nt_build_number / 2 ^ 28 * 2 ^ 28 = 12 * 2 ^ 28 := by
      rw [h]; norm_num
    have := Nat.eq_of_mul_eq_mul_right (show 0 < 2 ^ 28 by norm_num) h4
    simpa using this
  · intro h
    rw [show v.nt_build_number / 0x10000000 = v.nt_build_number / 2 ^ 28 from rfl] at h
    rw [h]
    norm_num

/-- Claim C9 — witness for the bounded conjunct at a concrete version. -/
theorem c9_build_masking_witness :
    (0xC0005ABC : Nat) < 2 ^ 32 ∧
      ((Win32Version.new 10 0 0xC0005ABC).is_checked_build = true ↔
        (0xC0005ABC : Nat) / 0x10000000 = 0xC) :=
  ⟨by norm_num, c9_build_masking.2.2.2 (Win32Version.new 10 0 0xC0005ABC) (by decide)⟩

/-- Claim C10 — counterexample.  For `a = (10, 0, 0x10000)` and
`b = (99, 99, 0x10000)`, `PartialEq::eq` compares the raw (equal)
`nt_build_number` fields and returns `true`, while `Ord::cmp` sees both
masked builds as zero and falls through to the (differing) major
versions, returning `Less`: `a == b` does not coincide with
`cmp(a, b) == Equal`. -/
theorem c10_counterexample :
    Win32Version.beq (Win32Version.new 10 0 0x10000)
        (Win32Version.new 99 99 0x10000) = true ∧
      Win32Version.cmp (Win32Version.new 10 0 0x10000)
        (Win32Version.new 99 99 0x10000) = Ordering.lt := by
  decide

/-- Claim C10 (amended): for `Win32Version` values whose raw
`nt_build_number` fits in 16 bits (so raw and masked build coincide),
`PartialEq` is consistent with `Ord`: `a == b` holds iff `cmp(a, b)`
returns `Equal`. -/
theorem c10_eq_iff_cmp_eq (a b : Win32Version)
    (ha : a.nt_build_number ≤ 0xFFFF) (hb : b.nt_build_number ≤ 0xFFFF) :
    Win32Version.beq a b = true ↔ Win32Version.cmp a b = Ordering.eq := by
  have ha' : a.build_number = a.nt_build_number := by
    rw [build_number_eq_mod]; omega
  have hb' : b.build_number = b.nt_build_number := by
    rw [build_number_eq_mod]; omega
  unfold Win32Version.beq Win32Version.cmp
  rw [ha', hb']
  by_cases h : a.nt_build_number ≠ 0 ∧ b.nt_build_number ≠ 0
  · rw [if_pos h, if_pos h, Nat.compare_eq_eq]
    simp
  · rw [if_neg h, if_neg h]
    rcases eq_or_ne a.nt_major_version b.nt_major_version with hM | hM
    · rw [if_neg (by simp [hM])]
      rcases eq_or_ne a.nt_minor_version b.nt_minor_version with hm | hm
      · rw [if_neg (by simp [hm])]
        simp [hM, hm]
      · rw [if_pos hm]
        simp [hM, hm, Nat.compare_eq_eq]
    · rw [if_pos hM]
      simp [hM, Nat.compare_eq_eq]

/-- Claim C10 — witness for the amended theorem at a concrete input. -/
theorem c10_eq_iff_cmp_eq_witness :
    Win32Version.beq (Win32Version.new 10 0 22621)
        (Win32Version.new 10 0 22621) = true ↔
      Win32Version.cmp (Win32Version.new 10 0 22621)
        (Win32Version.new 10 0 22621) = Ordering.eq :=
  c10_eq_iff_cmp_eq (Win32Version.new 10 0 22621) (Win32Version.new 10 0 22621)
    (by decide) (by decide)

theorem or_bit_and_bit (b s : Nat) : (b ||| 2 ^ s) &&& 2 ^ s = 2 ^ s := by
  rw [Nat.and_two_pow]
  simp [Nat.testBit_or, Nat.testBit_two_pow_self]

theorem clear_bit_and_bit (b s : Nat) (hs : s < 8) :
    (b &&& (0xFF ^^^ 2 ^ s)) &&& 2 ^ s = 0 := by
  rw [Nat.and_two_pow]
  have h1 : (0xFF ^^^ 2 ^ s).testBit s = false := by
    rw [Nat.testBit_xor, show (0xFF : Nat) = 2 ^ 8 - 1 by norm_num,
      Nat.testBit_two_pow_sub_one, Nat.testBit_two_pow_self]
    simp [hs]
  simp [Nat.testBit_and, h1]

theorem or_bit_testBit_ne (b s t : Nat) (ht : t ≠ s) :
    (b ||| 2 ^ s).testBit t = b.testBit t := by
  simp [Nat.testBit_or, Nat.testBit_two_pow_of_ne fun h => ht h.symm]

theorem clear_bit_testBit_ne (b s t : Nat) (ht : t ≠ s) (ht8 : t < 8) :
    (b &&& (0xFF ^^^ 2 ^ s)).testBit t = b.testBit t := by
  have h1 : (0xFF ^^^ 2 ^ s).testBit t = true := by
    rw [Nat.testBit_xor, show (0xFF : Nat) = 2 ^ 8 - 1 by norm_num,
      Nat.testBit_two_pow_sub_one, Nat.testBit_two_pow_of_ne fun h => ht h.symm]
    simp [ht8]
  simp [Nat.testBit_and, h1]

theorem get_ks_down_bit_eq_pow (vk : Nat) : get_ks_down_bit vk = 2 ^ (vk % 4 * 2) := by
  unfold get_ks_down_bit
  rw [Nat.shiftLeft_eq, one_mul]

/-- Claim C2 — the code panics at `vk = 256`: the range guard `(0..=256)`
admits `vk = 256`, for which the byte index `256 * 2 / 8 = 64` is out of
bounds of the 64-byte key-state array, so `is_down` and `set_down` reach
the panicking index (`none`) instead of returning `false` / doing
nothing. -/
theorem c2_panic_at_vk256 :
    get_ks_byte 256 = 64 ∧
      kb_is_down (some (List.replicate 64 0)) 256 = none ∧
      kb_set_down (some (List.replicate 64 0)) 256 true = none := by
  decide

/-- Claim C4: for every `vk ∈ [0, 256)` and every 64-byte key state (with a
successful read), `set_down(vk, true)` writes back a buffer on which
`is_down(vk)` is `true`, `set_down(vk, false)` one on which it is
`false`, and every bit of the state other than bit `(vk % 4) * 2` of byte
`vk * 2 / 8` is unchanged. -/
theorem c4_keyboard_bit_math (vk : Nat) (hvk : vk < 256) (buf : List Nat)
    (hlen : buf.length = 64) :
    (kb_set_down (some buf) (vk : Int) true =
        some (some (buf.set (get_ks_byte vk)
          (set_key_down_byte (buf.getD (get_ks_byte vk) 0) vk true))) ∧
      kb_is_down (some (buf.set (get_ks_byte vk)
          (set_key_down_byte (buf.getD (get_ks_byte vk) 0) vk true))) (vk : Int) =
        some true) ∧
    (kb_set_down (some buf) (vk : Int) false =
        some (some (buf.set (get_ks_byte vk)
          (set_key_down_byte (buf.getD (get_ks_byte vk) 0) vk false))) ∧
      kb_is_down (some (buf.set (get_ks_byte vk)
          (set_key_down_byte (buf.getD (get_ks_byte vk) 0) vk false))) (vk : Int) =
        some false) ∧
    (∀ (down : Bool) (j t : Nat), j < 64 → t < 8 →
      ¬(j = get_ks_byte vk ∧ t = vk % 4 * 2) →
      ((buf.set (get_ks_byte vk)
          (set_key_down_byte (buf.getD (get_ks_byte vk) 0) vk down)).getD j 0).testBit t =
        (buf.getD j 0).testBit t) := by
  have hidx : get_ks_byte vk < 64 := by
    unfold get_ks_byte; omega
  have hlt : get_ks_byte vk < buf.length := by rw [hlen]; exact hidx
  have hguard : (0 : Int) ≤ (vk : Int) ∧ (vk : Int) ≤ 256 :=
    ⟨Int.natCast_nonneg vk, by exact_mod_cast (by omega : vk ≤ 256)⟩
  have hget : buf.get? (get_ks_byte vk) = some (buf.getD (get_ks_byte vk) 0) := by
    rw [List.getD_eq_getElem?_getD, List.get?_eq_getElem?, List.getElem?_eq_getElem hlt]
    rfl
  have hs8 : vk % 4 * 2 < 8 := by omega
  have hset : ∀ d : Bool, kb_set_down (some buf) (vk : Int) d =
      some (some (buf.set (get_ks_byte vk)
        (set_key_down_byte (buf.getD (get_ks_byte vk) 0) vk d))) := by
    intro d
    simp only [kb_set_down, if_pos hguard, set_key_down, Int.toNat_natCast, hget,
      Option.map_some']
  have hread : ∀ d : Bool, kb_is_down (some (buf.set (get_ks_byte vk)
      (set_key_down_byte (buf.getD (get_ks_byte vk) 0) vk d))) (vk : Int) =
      some ((set_key_down_byte (buf.getD (get_ks_byte vk) 0) vk d &&&
        get_ks_down_bit vk) != 0) := by
    intro d
    simp only [kb_is_down, if_neg (not_not_intro hguard), is_key_down, Int.toNat_natCast]
    rw [List.get?_eq_getElem?, List.getElem?_set_eq_of_lt _ hlt]
    rfl
  refine ⟨⟨hset true, ?_⟩, ⟨hset false, ?_⟩, ?_⟩
  · rw [hread true]
    unfold set_key_down_byte
    rw [if_pos rfl, get_ks_down_bit_eq_pow, or_bit_and_bit]
    simp [bne_iff_ne]
  · rw [hread false]
    unfold set_key_down_byte
    rw [if_neg (by simp), get_ks_down_bit_eq_pow, clear_bit_and_bit _ _ hs8]
    simp
  · intro down j t _ ht8 hne
    rcases eq_or_ne j (get_ks_byte vk) with hj | hj
    · subst hj
      have htne : t ≠ vk % 4 * 2 := fun h => hne ⟨rfl, h⟩
      rw [List.getD_eq_getElem?_getD, List.getElem?_set_eq_of_lt _ hlt]
      rw [show ((some (set_key_down_byte (buf.getD (get_ks_byte vk) 0) vk down)).getD 0) =
        set_key_down_byte (buf.getD (get_ks_byte vk) 0) vk down from rfl]
      unfold set_key_down_byte
      cases down with
      | true =>
        rw [if_pos rfl, get_ks_down_bit_eq_pow, or_bit_testBit_ne _ _ _ htne]
      | false =>
        rw [if_neg (by simp), get_ks_down_bit_eq_pow,
          clear_bit_testBit_ne _ _ _ htne ht8]
    · rw [List.getD_eq_getElem?_getD, List.getElem?_set_ne fun h => hj h.symm,
        List.getD_eq_getElem?_getD]

/-- Claim C4 — witness at `vk = 0x20` on the all-zero key state. -/
theorem c4_keyboard_bit_math_witness :
    kb_set_down (some (List.replicate 64 0)) ((32 : Nat) : Int) true =
        some (some ((List.replicate 64 0).set (get_ks_byte 32)
          (set_key_down_byte ((List.replicate 64 0).getD (get_ks_byte 32) 0) 32 true))) ∧
      kb_is_down (some ((List.replicate 64 0).set (get_ks_byte 32)
          (set_key_down_byte ((List.replicate 64 0).getD (get_ks_byte 32) 0) 32 true)))
          ((32 : Nat) : Int) =
        some true :=
  (c4_keyboard_bit_math 32 (by decide) (List.replicate 64 0) (by decide)).1

/-- Claim C6: `process_info_from_base_info` records no TEB when
`kernel_winver < (6, 2)`; for `kernel_winver ≥ (6, 2)` the read TEB is
recorded iff it is non-null, and `teb_wow64 = teb + 0x2000` is recorded
iff additionally the process architecture differs from the system
architecture. -/
theorem c6_teb_gate (winver : Win32Version) (tebVal : Nat)
    (procArch sysArch : ArchitectureIdent) :
    (¬winver.ge (Win32Version.ofPair 6 2) →
      process_info_teb winver tebVal procArch sysArch = (none, none)) ∧
    (winver.ge (Win32Version.ofPair 6 2) →
      ((process_info_teb winver tebVal procArch sysArch).1 = some tebVal ↔ tebVal ≠ 0) ∧
      ((process_info_teb winver tebVal procArch sysArch).1 = none ↔ tebVal = 0) ∧
      ((process_info_teb winver tebVal procArch sysArch).2 = some (tebVal + 0x2000) ↔
        tebVal ≠ 0 ∧ procArch ≠ sysArch) ∧
      ((process_info_teb winver tebVal procArch sysArch).2 = none ↔
        tebVal = 0 ∨ procArch = sysArch)) := by
  constructor
  · intro h
    unfold process_info_teb
    rw [if_neg h]
  · intro h
    simp only [process_info_teb, if_pos h]
    by_cases htv : tebVal = 0
    · simp [htv]
    · by_cases harch : procArch = sysArch <;> simp [htv, harch]

/-- Claim C6 — witness: a Windows 10 kernel with a non-null TEB read and a
WOW64 process records the TEB. -/
theorem c6_teb_gate_witness :
    (Win32Version.new 10 0 19045).ge (Win32Version.ofPair 6 2) ∧
      ((process_info_teb (Win32Version.new 10 0 19045) 0x7000
          (ArchitectureIdent.X86 32 true) (ArchitectureIdent.X86 64 false)).1 =
        some 0x7000 ↔ (0x7000 : Nat) ≠ 0) :=
  ⟨by decide,
    ((c6_teb_gate (Win32Version.new 10 0 19045) 0x7000
      (ArchitectureIdent.X86 32 true) (ArchitectureIdent.X86 64 false)).2 (by decide)).1⟩

theorem win11_of_24h2 (w : Win32Version)
    (h : w.ge (Win32Version.new 10 0 22632)) :
    w.ge (Win32Version.new 10 0 22621) := by
  unfold Win32Version.ge Win32Version.cmp at h ⊢
  have h32 : (Win32Version.new 10 0 22632).build_number = 22632 := by decide
  have h21 : (Win32Version.new 10 0 22621).build_number = 22621 := by decide
  by_cases hb : w.build_number = 0
  · rw [if_neg (by simp [hb])] at h ⊢
    exact h
  · rw [if_pos ⟨hb, by rw [h32]; norm_num⟩] at h
    rw [if_pos ⟨hb, by rw [h21]; norm_num⟩, h21]
    rw [h32] at h
    intro hlt
    rw [Nat.compare_eq_lt] at hlt
    exact h (Nat.compare_eq_lt.mpr (by omega))

/-- Claim C8: for every `kernel_winver ≥ (10, 0, 22632)` the keyboard
locator takes the 24H2 branch: target module `win32k.sys`, signature
`48 8B 05 ? ? ? ? FF C9`, global-slots fallback offset `0x824F0` and
key-state fallback offset `0x3808`. -/
theorem c8_24h2_branch (winver : Win32Version)
    (h : winver.ge (Win32Version.new 10 0 22632)) :
    find_in_user_process_selection winver =
      some ⟨[some 0x48, some 0x8B, some 0x05, none, none, none, none,
        some 0xFF, some 0xC9], "win32k.sys", 0x824F0, 0x3808⟩ := by
  simp only [find_in_user_process_selection]
  rw [if_pos (win11_of_24h2 winver h), if_pos h]
  rfl

/-- Claim C8 — witness at `kernel_winver = (10, 0, 26100)` (Win11 24H2). -/
theorem c8_24h2_branch_witness :
    (Win32Version.new 10 0 26100).ge (Win32Version.new 10 0 22632) ∧
      find_in_user_process_selection (Win32Version.new 10 0 26100) =
        some ⟨[some 0x48, some 0x8B, some 0x05, none, none, none, none,
          some 0xFF, some 0xC9], "win32k.sys", 0x824F0, 0x3808⟩ :=
  ⟨by decide, c8_24h2_branch (Win32Version.new 10 0 26100) (by decide)⟩

/-- Claim C7: whenever the first match of the `gafAsyncKeyState` signature
in the module buffer is at offset `m`, `find_gaf_sig` returns
`m + 3 + i32_le(buffer[m+3..m+7]) + 4` computed in 32-bit (mod `2^32`)
arithmetic, where `i32_le` is the signed little-endian reading of the
four displacement bytes. -/
theorem c7_gaf_rip_resolve (buf : List Nat) (m : Nat)
    (h : sigFirstMatch sig_gaf buf = some m) :
    find_gaf_sig buf =
      some ((((m : Int) + 3 + i32_of_u32 (u32_le_at buf (m + 3)) + 4) %
        (2 ^ 32 : Int)).toNat) := by
  unfold find_gaf_sig
  rw [h]
  have hcast : ((((m + 0x3) % 2 ^ 32 + u32_le_at buf (m + 0x3) + 0x4) % 2 ^ 32 : Nat) : Int) =
      ((m : Int) + 3 + i32_of_u32 (u32_le_at buf (m + 3)) + 4) % (2 ^ 32 : Int) := by
    unfold i32_of_u32
    push_cast
    split <;> omega
  rw [← hcast, Int.toNat_natCast]

/-- Claim C7 — witness on a 17-byte buffer matching the signature at offset
0 with displacement bytes `10 00 00 00`. -/
theorem c7_gaf_rip_resolve_witness :
    sigFirstMatch sig_gaf
        [0x48, 0x8B, 0x05, 0x10, 0, 0, 0, 0x48, 0x89, 0x81, 0, 0, 0, 0,
          0x48, 0x8B, 0x8F] = some 0 ∧
      find_gaf_sig
        [0x48, 0x8B, 0x05, 0x10, 0, 0, 0, 0x48, 0x89, 0x81, 0, 0, 0, 0,
          0x48, 0x8B, 0x8F] =
        some ((((0 : Int) + 3 + i32_of_u32 (u32_le_at
          [0x48, 0x8B, 0x05, 0x10, 0, 0, 0, 0x48, 0x89, 0x81, 0, 0, 0, 0,
            0x48, 0x8B, 0x8F] (0 + 3)) + 4) % (2 ^ 32 : Int)).toNat) :=
  ⟨by decide, c7_gaf_rip_resolve _ 0 (by decide)⟩

theorem addr_sub_injOn (a b k : Nat) (ha : a < 2 ^ 64) (hb : b < 2 ^ 64)
    (h : addr_sub a k = addr_sub b k) : a = b := by
  unfold addr_sub at h
  omega

theorem palc_walk_length_le (read : Nat → Option Nat)
    (blinkOff eprocLink listStart : Nat) (cb : Nat → Bool) :
    ∀ (fuel x : Nat),
      (palc_walk read blinkOff eprocLink listStart cb fuel x).length ≤ fuel := by
  intro fuel
  induction fuel with
  | zero => intro x; simp [palc_walk]
  | succ f ih =>
    intro x
    rw [palc_walk]
    cases h1 : read x with
    | none => simp
    | some flink =>
      cases h2 : read ((x + blinkOff) % 2 ^ 64) with
      | none => simp
      | some blink =>
        simp only []
        split
        · simp
        · split
          · simpa using Nat.succ_le_succ (ih flink)
          · simp

theorem palc_walk_nodup (read : Nat → Option Nat)
    (blinkOff eprocLink listStart : Nat) (cb : Nat → Bool)
    (hwf : ∀ a v, read a = some v → v < 2 ^ 64) (hstart : listStart < 2 ^ 64)
    (hterm : palc_reaches_terminal read blinkOff listStart) (fuel : Nat) :
    (palc_walk read blinkOff eprocLink listStart cb fuel listStart).Nodup := by
  classical
  obtain ⟨n, c, hc0, hstep, htn⟩ := hterm
  have hex : ∃ i, palc_terminal read blinkOff listStart (c i) = true := ⟨n, htn⟩
  have hn0 : palc_terminal read blinkOff listStart (c (Nat.find hex)) = true :=
    Nat.find_spec hex
  have hn0min : ∀ i, i < Nat.find hex →
      ¬(palc_terminal read blinkOff listStart (c i) = true) :=
    fun i hi => Nat.find_min hex hi
  have hn0le : Nat.find hex ≤ n := Nat.find_le htn
  have hstep0 : ∀ i, i < Nat.find hex → read (c i) = some (c (i + 1)) :=
    fun i hi => hstep i (lt_of_lt_of_le hi hn0le)
  have hcinj : ∀ i j, i < j → j ≤ Nat.find hex → c i ≠ c j := by
    intro i j hij hjn0 hcij
    have hper : ∀ d, i + d + (j - i) ≤ Nat.find hex →
        c (i + d + (j - i)) = c (i + d) := by
      intro d
      induction d with
      | zero =>
        intro _
        have hj : i + 0 + (j - i) = j := by omega
        rw [hj]
        simpa using hcij.symm
      | succ d ihd =>
        intro hle
        have h1 := ihd (by omega)
        have hr1 : read (c (i + d)) = some (c (i + d + 1)) := hstep0 _ (by omega)
        have hr2 : read (c (i + d + (j - i))) = some (c (i + d + (j - i) + 1)) :=
          hstep0 _ (by omega)
        rw [h1, hr1] at hr2
        have h2 := Option.some.inj hr2
        rw [show i + (d + 1) + (j - i) = i + d + (j - i) + 1 by omega,
          show i + (d + 1) = i + d + 1 by omega]
        exact h2.symm
    have happ := hper (Nat.find hex - j) (by omega)
    rw [show i + (Nat.find hex - j) + (j - i) = Nat.find hex by omega] at happ
    have hterm2 : palc_terminal read blinkOff listStart
        (c (i + (Nat.find hex - j))) = true := by
      rw [← happ]
      exact hn0
    exact hn0min (i + (Nat.find hex - j)) (by omega) hterm2
  have hclt : ∀ i, i ≤ Nat.find hex → c i < 2 ^ 64 := by
    intro i hi
    cases i with
    | zero => rw [hc0]; exact hstart
    | succ i => exact hwf _ _ (hstep0 i (by omega))
  have hwalk : ∀ (fu i : Nat), i ≤ Nat.find hex → ∃ m, i + m ≤ Nat.find hex ∧
      palc_walk read blinkOff eprocLink listStart cb fu (c i) =
        (List.range m).map fun t => addr_sub (c (i + t)) eprocLink := by
    intro fu
    induction fu with
    | zero => exact fun i hi => ⟨0, by omega, by simp [palc_walk]⟩
    | succ f ih =>
      intro i hi
      by_cases hti : palc_terminal read blinkOff listStart (c i) = true
      · refine ⟨0, by omega, ?_⟩
        rw [palc_walk]
        unfold palc_terminal at hti
        cases h1 : read (c i) with
        | none => simp
        | some flink =>
          cases h2 : read ((c i + blinkOff) % 2 ^ 64) with
          | none => simp
          | some blink =>
            rw [h1, h2] at hti
            have hcond : flink = 0 ∨ blink = 0 ∨ flink = listStart ∨ flink = c i := by
              have := of_decide_eq_true (by simpa using hti)
              tauto
            simp only []
            rw [if_pos hcond]
            simp
      · have hii : i < Nat.find hex := by
          rcases Nat.lt_or_eq_of_le hi with h | h
          · exact h
          · subst h
            exact absurd hn0 hti
        unfold palc_terminal at hti
        cases h1 : read (c i) with
        | none =>
          rw [h1] at hti
          simp at hti
        | some flink =>
          cases h2 : read ((c i + blinkOff) % 2 ^ 64) with
          | none =>
            rw [h1, h2] at hti
            simp at hti
          | some blink =>
            rw [h1, h2] at hti
            have hcond : ¬(flink = 0 ∨ blink = 0 ∨ flink = listStart ∨ flink = c i) := by
              intro hor
              exact hti (by simp; tauto)
            have hflink : flink = c (i + 1) := by
              have hr := hstep0 i hii
              rw [h1] at hr
              exact Option.some.inj hr
            rw [palc_walk, h1, h2]
            simp only []
            rw [if_neg hcond]
            by_cases hcb : cb (addr_sub (c i) eprocLink)
            · obtain ⟨m2, hm2, hwk⟩ := ih (i + 1) hii
              refine ⟨m2 + 1, by omega, ?_⟩
              rw [if_pos hcb, hflink, hwk, List.range_succ_eq_map]
              simp only [List.map_cons, List.map_map, Nat.add_zero, Function.comp]
              congr 1
              apply List.map_congr_left
              intro t _
              simp only [Function.comp_apply]
              have h5 : i + t.succ = i + 1 + t := by omega
              rw [h5]
            · refine ⟨1, by omega, ?_⟩
              rw [if_neg hcb,
                show List.range 1 = [0] from rfl, List.map_cons, List.map_nil,
                Nat.add_zero]
  obtain ⟨m, hm, hwk⟩ := hwalk fuel 0 (Nat.zero_le _)
  rw [hc0] at hwk
  rw [hwk]
  refine List.Nodup.map_on ?_ (List.nodup_range m)
  intro x hx y hy hxy
  rw [List.mem_range] at hx hy
  have heq := addr_sub_injOn (c (0 + x)) (c (0 + y)) eprocLink
    (hclt (0 + x) (by omega)) (hclt (0 + y) (by omega)) hxy
  by_contra hne
  rcases Nat.lt_or_ge x y with hlt | hge
  · exact hcinj (0 + x) (0 + y) (by omega) (by omega) heq
  · have hlt2 : y < x := by omega
    exact hcinj (0 + y) (0 + x) (by omega) (by omega) heq.symm

theorem palc_walk_head_stop (read : Nat → Option Nat)
    (blinkOff eprocLink listStart : Nat) (cb : Nat → Bool) (fuel : Nat)
    (h : read listStart = some listStart ∨ read listStart = some 0 ∨
      read ((listStart + blinkOff) % 2 ^ 64) = some 0) :
    palc_walk read blinkOff eprocLink listStart cb (fuel + 1) listStart = [] := by
  rw [palc_walk]
  cases h1 : read listStart with
  | none => simp
  | some flink =>
    cases h2 : read ((listStart + blinkOff) % 2 ^ 64) with
    | none => simp
    | some blink =>
      simp only []
      rcases h with h | h | h
      · rw [h1] at h
        have hf : flink = listStart := Option.some.inj h
        rw [if_pos (Or.inr (Or.inr (Or.inl hf)))]
      · rw [h1] at h
        have hf : flink = 0 := Option.some.inj h
        rw [if_pos (Or.inl hf)]
      · rw [h2] at h
        have hb : blink = 0 := Option.some.inj h
        rw [if_pos (Or.inr (Or.inl hb))]

/-- Claim C3: the process-list walk performs at most `MAX_ITER_COUNT = 65536`
iterations (so the callback fires at most 65,536 times); whenever
following `flink` from the list head eventually reaches a state where the
walk stops (null `flink`/`blink`, the head, a self-loop, or a failing
read), the callback is invoked at most once per list entry (the emitted
addresses are pairwise distinct); and a head whose `flink` is itself, or
whose `flink` or `blink` is null, yields zero callback invocations. -/
theorem c3_process_walk (read : Nat → Option Nat)
    (blinkOff eprocLink eprocessBase : Nat) (cb : Nat → Bool) :
    (process_address_list_callback read blinkOff eprocLink eprocessBase cb).length ≤
        MAX_ITER_COUNT ∧
    ((∀ a v, read a = some v → v < 2 ^ 64) →
      palc_reaches_terminal read blinkOff ((eprocessBase + eprocLink) % 2 ^ 64) →
      (process_address_list_callback read blinkOff eprocLink eprocessBase cb).Nodup) ∧
    (read ((eprocessBase + eprocLink) % 2 ^ 64) =
        some ((eprocessBase + eprocLink) % 2 ^ 64) →
      process_address_list_callback read blinkOff eprocLink eprocessBase cb = []) ∧
    (read ((eprocessBase + eprocLink) % 2 ^ 64) = some 0 →
      process_address_list_callback read blinkOff eprocLink eprocessBase cb = []) ∧
    (read (((eprocessBase + eprocLink) % 2 ^ 64 + blinkOff) % 2 ^ 64) = some 0 →
      process_address_list_callback read blinkOff eprocLink eprocessBase cb = []) := by
  refine ⟨palc_walk_length_le read blinkOff eprocLink _ cb MAX_ITER_COUNT _, ?_, ?_, ?_, ?_⟩
  · intro hwf hterm
    exact palc_walk_nodup read blinkOff eprocLink _ cb hwf
      (Nat.mod_lt _ (by norm_num)) hterm MAX_ITER_COUNT
  · intro h
    exact palc_walk_head_stop read blinkOff eprocLink _ cb 65535 (Or.inl h)
  · intro h
    exact palc_walk_head_stop read blinkOff eprocLink _ cb 65535 (Or.inr (Or.inl h))
  · intro h
    exact palc_walk_head_stop read blinkOff eprocLink _ cb 65535 (Or.inr (Or.inr h))

/-- Claim C3 — witness: a memory whose every read returns the null address
stops the walk immediately with zero callback invocations. -/
theorem c3_process_walk_witness :
    (∀ a v, (fun _ : Nat => some 0) a = some v → v < 2 ^ 64) ∧
      palc_reaches_terminal (fun _ : Nat => some 0) 0 ((0 + 0) % 2 ^ 64) ∧
      (process_address_list_callback (fun _ : Nat => some 0) 0 0 0
        (fun _ => true)).Nodup ∧
      process_address_list_callback (fun _ : Nat => some 0) 0 0 0 (fun _ => true) = [] := by
  have hwf : ∀ a v, (fun _ : Nat => some 0) a = some v → v < 2 ^ 64 := by
    intro a v h
    have hv : v = 0 := (Option.some.inj h).symm
    rw [hv]
    norm_num
  have hterm : palc_reaches_terminal (fun _ : Nat => some 0) 0 ((0 + 0) % 2 ^ 64) := by
    refine ⟨0, fun _ => (0 + 0) % 2 ^ 64, rfl, fun i hi => absurd hi (by omega), ?_⟩
    rfl
  have hmain := c3_process_walk (fun _ : Nat => some 0) 0 0 0 (fun _ => true)
  exact ⟨hwf, hterm, hmain.2.1 hwf hterm, hmain.2.2.2.1 rfl⟩

end MemflowWin32
